import Mathlib

/-!
Shallow embedding of the CHIP-8 interpreter core from `src/main.c`
(`chip8_decode_execute`, `chip8_load_pixels` and their helpers).

Conventions of the embedding:

* Machine integers are `Nat` with explicit truncation at the points where
  the C types force one: a read of a `uint8_t` cell is taken `% 256`
  (`vget`, `dget`, byte reads from memory), a read of a `uint16_t` stack
  slot is taken `% 65536`, and every arithmetic result stored into a
  fixed-width field carries the matching `% 2^w`.
* The fixed-size C arrays (`mem[4096]`, `v[16]`, `stack[16]`,
  `display[256]`) are `Array Nat`; in-bounds reads/writes use
  `Array.getD` / `Array.setD`.
* The C code performs two kinds of unchecked array accesses that can fall
  outside the array.  Stack accesses (`stack[c->sp++]`, `stack[--c->sp]`)
  would propagate garbage into `pc`, so an out-of-range stack index is
  made explicit as an `Except` error value marking the undefined
  behavior.  The draw loop's trailing `c->display[idx+1] ^= 0` at the
  bottom-right corner reads and writes one cell past the end but XORs 0
  into it; the state function models the resulting display content
  (unchanged), while the separate access-trace function
  `loadPixelsDisplayAccesses` records every display index the C code
  actually touches, so that the out-of-range access itself is visible.
  Reads of `mem` beyond index 4095 yield 0 via `getD` (no claim below
  depends on them).
* The function-local `static KeyStates store` inside the `FX0A` case and
  the libc `rand()` state used by `CXNN` live outside the `Chip8` struct
  in the C program; they are modelled as a separate `ProcState` value
  (one per process, not per machine instance) threaded through
  `chip8_decode_execute`, with the pending `rand()` outputs as a list.
-/

/-- `REG_COUNT` -/
def REG_COUNT : Nat := 16
/-- `MEM_SIZE` -/
def MEM_SIZE : Nat := 4096
/-- `STACK_SIZE` -/
def STACK_SIZE : Nat := 16
/-- `DISPLAY_WIDTH` (in bytes, 8 pixels per byte) -/
def DISPLAY_WIDTH : Nat := 8
/-- `DISPLAY_HEIGHT` -/
def DISPLAY_HEIGHT : Nat := 32
/-- `DISPLAY_SIZE = DISPLAY_HEIGHT * DISPLAY_WIDTH` -/
def DISPLAY_SIZE : Nat := DISPLAY_HEIGHT * DISPLAY_WIDTH
/-- `BYTE_SIZE` -/
def BYTE_SIZE : Nat := 8
/-- `FONT_DATA_OFFSET` -/
def FONT_DATA_OFFSET : Nat := 0x050

/-- `QUIRK_SHIFT_USE_VY = 1 << 0` -/
def QUIRK_SHIFT_USE_VY : Nat := 1
/-- `QUIRK_BXNN = 1 << 1` -/
def QUIRK_BXNN : Nat := 2
/-- `QUIRK_INC_INDEX = 1 << 2` -/
def QUIRK_INC_INDEX : Nat := 4

/-- `CKEY_ESC` (the 17th enum value, numerically 16). -/
def CKEY_ESC : Nat := 16

/-- Decode macro `OP(instruction) = instruction >> 12`. -/
def OP (instruction : Nat) : Nat := instruction >>> 12
/-- Decode macro `X(instruction) = (instruction & 0x0F00) >> 8`. -/
def X (instruction : Nat) : Nat := (instruction &&& 0x0F00) >>> 8
/-- Decode macro `Y(instruction) = (instruction & 0x00F0) >> 4`. -/
def Y (instruction : Nat) : Nat := (instruction &&& 0x00F0) >>> 4
/-- Decode macro `N(instruction) = instruction & 0x000F`. -/
def N (instruction : Nat) : Nat := instruction &&& 0x000F
/-- Decode macro `NN(instruction) = instruction & 0x00FF`. -/
def NN (instruction : Nat) : Nat := instruction &&& 0x00FF
/-- Decode macro `NNN(instruction) = instruction & 0x0FFF`. -/
def NNN (instruction : Nat) : Nat := instruction &&& 0x0FFF

/-- The `Chip8` struct: the per-instance machine state.  The `Config`
sub-struct is represented by its only core-relevant field, `quirks`
(the color strings and rates are rendering/driver data). -/
structure Chip8 where
  mem : Array Nat
  pc : Nat
  i : Nat
  stack : Array Nat
  sp : Nat
  delay_timer : Nat
  sound_timer : Nat
  v : Array Nat
  display : Array Nat
  keys : Nat
  quirks : Nat
  deriving Repr, DecidableEq

/-- Process-wide mutable state that is *not* part of the `Chip8` struct:
the `static KeyStates store` local to the `FX0A` case of
`chip8_decode_execute`, and the hidden libc PRNG state behind `rand()`
(modelled as the list of its pending outputs). -/
structure ProcState where
  store : Nat
  rands : List Nat
  deriving Repr, DecidableEq

/-- Marker for an unchecked C array access whose index falls outside the
16-entry `stack` array (undefined behavior in the source). -/
inductive StackUB where
  | stackRead (idx : Nat)
  | stackWrite (idx : Nat)
  deriving Repr, DecidableEq

/-- Read of a `uint8_t` array cell (`v`, `display`, `mem`). -/
def dget (a : Array Nat) (j : Nat) : Nat := a.getD j 0 % 256

/-- Read of register `vX` (a `uint8_t`). -/
def vget (c : Chip8) (r : Nat) : Nat := dget c.v r

/-- One step of the `while (k < CKEY_ESC && !KEY_DOWN(diff, k)) k++;`
search loop of the `FX0A` case; `fuel` bounds the remaining iterations
(the loop itself increments `k` toward `CKEY_ESC`). -/
def keySearchGo (diff : Nat) : Nat → Nat → Nat
  | k, 0 => k
  | k, fuel + 1 =>
    if k < CKEY_ESC ∧ ¬ diff.testBit k then keySearchGo diff (k + 1) fuel else k

/-- The `while (k < CKEY_ESC && !KEY_DOWN(diff, k)) k++;` search loop of
the `FX0A` case: first bit index `≥ k` below `CKEY_ESC` set in `diff`,
or `CKEY_ESC` if none.  (`CKEY_ESC - k` iterations always suffice, since
each iteration increments `k` and the loop stops at `CKEY_ESC`.) -/
def keySearch (diff : Nat) (k : Nat) : Nat :=
  keySearchGo diff k (CKEY_ESC - k)

/-- Row loop of `chip8_load_pixels`: processes rows `i, i+1, ...` with
`n` rows remaining, threading the display and the `vf` accumulator.
`x` and `y` are the already-wrapped coordinates, `start_bit = x % 8`
and `rhs_bits = 8 - start_bit` are the loop-invariant shifts. -/
def drawRows (mem : Array Nat) (ireg x y : Nat) :
    Nat → Nat → Array Nat → Bool → Array Nat × Bool
  | _, 0, disp, vf => (disp, vf)
  | i, n + 1, disp, vf =>
    let sprite_row := dget mem (ireg + i)
    let start_bit := x % BYTE_SIZE
    let rhs_bits := BYTE_SIZE - start_bit
    let first_byte_mask := sprite_row >>> start_bit
    let idx := (y + i) * DISPLAY_WIDTH + x / DISPLAY_WIDTH
    if DISPLAY_SIZE ≤ idx then (disp, vf)
    else
      let vf := vf || decide (dget disp idx &&& first_byte_mask ≠ 0)
      let disp := disp.setD idx (dget disp idx ^^^ first_byte_mask)
      let second_byte_mask := ((sprite_row &&& (0xFF >>> rhs_bits)) <<< rhs_bits) % 256
      let not_offscreen := (idx + 1) % DISPLAY_WIDTH
      let vf := if not_offscreen ≠ 0
        then vf || decide (dget disp (idx + 1) &&& second_byte_mask ≠ 0)
        else vf
      let disp := disp.setD (idx + 1)
        (dget disp (idx + 1) ^^^ (if not_offscreen ≠ 0 then second_byte_mask else 0))
      drawRows mem ireg x y (i + 1) n disp vf

/-- `chip8_load_pixels(c, x, y, h)`: XOR-draws an 8×`h` sprite read from
`mem[c.i..]` at wrapped start position, then stores the collision flag
into `v[0xF]`. -/
def chip8_load_pixels (c : Chip8) (x y h : Nat) : Chip8 :=
  let x := x % (DISPLAY_WIDTH * BYTE_SIZE)
  let y := y % DISPLAY_HEIGHT
  let r := drawRows c.mem c.i x y 0 h c.display false
  { c with display := r.1, v := c.v.setD 0xF (if r.2 then 1 else 0) }

/-- The sequence of `display` indices accessed (read or written) by the
row loop of `chip8_load_pixels`, in program order.  Each iteration with
`idx < DISPLAY_SIZE` accesses `display[idx]` (the `vf` read and the
`^=` write), then — only when `(idx+1) % DISPLAY_WIDTH != 0` — reads
`display[idx+1]` for `vf`, and finally *unconditionally* executes
`c->display[idx+1] ^= (not_offscreen ? second_byte_mask : 0)`, an
access of `display[idx+1]` in every iteration. -/
def loadPixelsDisplayAccesses (x y h : Nat) : List Nat :=
  let x := x % (DISPLAY_WIDTH * BYTE_SIZE)
  let y := y % DISPLAY_HEIGHT
  go x y 0 h
where
  go (x y : Nat) : Nat → Nat → List Nat
    | _, 0 => []
    | i, n + 1 =>
      let idx := (y + i) * DISPLAY_WIDTH + x / DISPLAY_WIDTH
      if DISPLAY_SIZE ≤ idx then []
      else
        ([idx, idx] ++ (if (idx + 1) % DISPLAY_WIDTH ≠ 0 then [idx + 1] else [])
          ++ [idx + 1]) ++ go x y (i + 1) n

/-- `case 0x0`: `00E0` clear screen, `00EE` return (pre-decrement `sp`,
then read `stack[sp]`; the read is unchecked in C, an index outside the
16-entry array is marked as undefined behavior). -/
def exec_op0 (c : Chip8) (ins : Nat) : Except StackUB Chip8 :=
  if NN ins = 0xE0 then
    .ok { c with display := Array.mkArray DISPLAY_SIZE 0 }
  else if NN ins = 0xEE then
    let sp2 := (c.sp + 255) % 256
    if sp2 < STACK_SIZE then
      .ok { c with pc := c.stack.getD sp2 0 % 65536, sp := sp2 }
    else
      .error (.stackRead sp2)
  else
    .ok c

/-- `case 0x1`: `1NNN` jump. -/
def exec_op1 (c : Chip8) (ins : Nat) : Chip8 :=
  { c with pc := NNN ins }

/-- `case 0x2`: `2NNN` call — `stack[sp++] = pc; pc = NNN`.  The write is
unchecked in C; an index outside the 16-entry array is marked as
undefined behavior. -/
def exec_op2 (c : Chip8) (ins : Nat) : Except StackUB Chip8 :=
  if c.sp < STACK_SIZE then
    .ok { c with stack := c.stack.setD c.sp c.pc,
                 sp := (c.sp + 1) % 256,
                 pc := NNN ins }
  else
    .error (.stackWrite c.sp)

/-- `case 0x3`: skip if `vX == NN`. -/
def exec_op3 (c : Chip8) (ins : Nat) : Chip8 :=
  { c with pc := (c.pc + (if vget c (X ins) = NN ins then 2 else 0)) % 65536 }

/-- `case 0x4`: skip if `vX != NN`. -/
def exec_op4 (c : Chip8) (ins : Nat) : Chip8 :=
  { c with pc := (c.pc + (if vget c (X ins) ≠ NN ins then 2 else 0)) % 65536 }

/-- `case 0x5`: skip if `vX == vY`. -/
def exec_op5 (c : Chip8) (ins : Nat) : Chip8 :=
  { c with pc := (c.pc + (if vget c (X ins) = vget c (Y ins) then 2 else 0)) % 65536 }

/-- `case 0x9`: skip if `vX != vY`. -/
def exec_op9 (c : Chip8) (ins : Nat) : Chip8 :=
  { c with pc := (c.pc + (if vget c (X ins) ≠ vget c (Y ins) then 2 else 0)) % 65536 }

/-- `case 0x6`: `vX = NN`. -/
def exec_op6 (c : Chip8) (ins : Nat) : Chip8 :=
  { c with v := c.v.setD (X ins) (NN ins) }

/-- `case 0x7`: `vX += NN` (wrapping 8-bit). -/
def exec_op7 (c : Chip8) (ins : Nat) : Chip8 :=
  { c with v := c.v.setD (X ins) ((vget c (X ins) + NN ins) % 256) }

/-- `case 0x8`: the ALU family, keyed on the low nibble, in source
order (`0,1,2,3,4,5,7,6,E`; other nibbles fall through the switch). -/
def exec_op8 (c : Chip8) (ins : Nat) : Chip8 :=
  let x := X ins
  let y := Y ins
  if N ins = 0x0 then
    { c with v := c.v.setD x (vget c y) }
  else if N ins = 0x1 then
    { c with v := c.v.setD x (vget c x ||| vget c y) }
  else if N ins = 0x2 then
    { c with v := c.v.setD x (vget c x &&& vget c y) }
  else if N ins = 0x3 then
    { c with v := c.v.setD x (vget c x ^^^ vget c y) }
  else if N ins = 0x4 then
    let sum := vget c x + vget c y
    { c with v := (c.v.setD x (sum % 256)).setD 0xF (if 0xFF < sum then 1 else 0) }
  else if N ins = 0x5 then
    let vf := if vget c y ≤ vget c x then 1 else 0
    { c with v := (c.v.setD x ((vget c x + 256 - vget c y) % 256)).setD 0xF vf }
  else if N ins = 0x7 then
    let vf := if vget c x ≤ vget c y then 1 else 0
    { c with v := (c.v.setD x ((vget c y + 256 - vget c x) % 256)).setD 0xF vf }
  else if N ins = 0x6 then
    let c := if c.quirks &&& QUIRK_SHIFT_USE_VY ≠ 0
      then { c with v := c.v.setD x (vget c y) } else c
    let vf := if vget c x &&& 1 ≠ 0 then 1 else 0
    { c with v := (c.v.setD x (vget c x >>> 1)).setD 0xF vf }
  else if N ins = 0xE then
    let c := if c.quirks &&& QUIRK_SHIFT_USE_VY ≠ 0
      then { c with v := c.v.setD x (vget c y) } else c
    let vf := if vget c x &&& 0x80 ≠ 0 then 1 else 0
    { c with v := (c.v.setD x ((vget c x <<< 1) % 256)).setD 0xF vf }
  else
    c

/-- `case 0xA`: `i = NNN`. -/
def exec_opA (c : Chip8) (ins : Nat) : Chip8 :=
  { c with i := NNN ins }

/-- `case 0xB`: the source assigns `c->i = NNN + v[reg]` (it does not
touch `pc`); `reg` is `X` under `QUIRK_BXNN`, else `0`. -/
def exec_opB (c : Chip8) (ins : Nat) : Chip8 :=
  let reg := if c.quirks &&& QUIRK_BXNN ≠ 0 then X ins else 0
  { c with i := (NNN ins + vget c reg) % 65536 }

/-- `case 0xC`: `vX = rand() & NN`; consumes one output of the hidden
libc PRNG stream (truncated to `uint8_t` by the assignment to `r`). -/
def exec_opC (c : Chip8) (g : ProcState) (ins : Nat) : Chip8 × ProcState :=
  let r := g.rands.headD 0 % 256
  ({ c with v := c.v.setD (X ins) (r &&& NN ins) },
   { g with rands := g.rands.tail })

/-- `case 0xD`: `chip8_load_pixels(c, v[X], v[Y], N)`. -/
def exec_opD (c : Chip8) (ins : Nat) : Chip8 :=
  chip8_load_pixels c (vget c (X ins)) (vget c (Y ins)) (N ins)

/-- `case 0xE`: `EX9E` / `EXA1` skip on key state of key number `vX`. -/
def exec_opE (c : Chip8) (ins : Nat) : Chip8 :=
  let reg := X ins
  if NN ins = 0x9E then
    { c with pc := (c.pc + (if c.keys.testBit (vget c reg) then 2 else 0)) % 65536 }
  else if NN ins = 0xA1 then
    { c with pc := (c.pc + (if ¬ c.keys.testBit (vget c reg) then 2 else 0)) % 65536 }
  else
    c

/-- `case 0xF`, keyed on the low byte, in source order
(`0A, 07, 15, 18, 1E, 29, 33, 55, 65`).  Faithful to the source:
`FX18` writes `c->delay_timer` (line 436) and `FX65` performs no
`QUIRK_INC_INDEX` increment.  Only the `0x0A` case touches the
process-wide `store`; the remaining cases, none of which read or write
process state, are split into `exec_opF_rest`. -/
def exec_opF_rest (c : Chip8) (ins : Nat) : Chip8 :=
  let reg := X ins
  if NN ins = 0x07 then
    { c with v := c.v.setD reg (c.delay_timer % 256) }
  else if NN ins = 0x15 then
    { c with delay_timer := vget c reg }
  else if NN ins = 0x18 then
    { c with delay_timer := vget c reg }
  else if NN ins = 0x1E then
    let newi := (c.i + vget c reg) % 65536
    { c with i := newi, v := c.v.setD 0xF (if MEM_SIZE < newi then 1 else 0) }
  else if NN ins = 0x29 then
    { c with i := N (vget c reg) * 5 + FONT_DATA_OFFSET }
  else if NN ins = 0x33 then
    let d := vget c reg
    let d3 := d % 10
    let d2 := (d / 10) % 10
    let d1 := d / 10 / 10
    { c with mem := ((c.mem.setD c.i d1).setD (c.i + 1) d2).setD (c.i + 2) d3 }
  else if NN ins = 0x55 then
    let mem := (List.range (reg + 1)).foldl
      (fun m k => m.setD (c.i + k) (vget c k)) c.mem
    let c := { c with mem := mem }
    if c.quirks &&& QUIRK_INC_INDEX ≠ 0
      then { c with i := (c.i + reg + 1) % 65536 } else c
  else if NN ins = 0x65 then
    let vs := (List.range (reg + 1)).foldl
      (fun vs k => vs.setD k (dget c.mem (c.i + k))) c.v
    { c with v := vs }
  else
    c

def exec_opF (c : Chip8) (g : ProcState) (ins : Nat) : Chip8 × ProcState :=
  let reg := X ins
  if NN ins = 0x0A then
    if c.keys < g.store then
      let diff := g.store ^^^ c.keys
      let k := keySearch diff 0
      ({ c with v := c.v.setD reg k }, { g with store := 0 })
    else
      ({ c with pc := (c.pc + 65534) % 65536 }, { g with store := c.keys })
  else
    (exec_opF_rest c ins, g)

/-- `chip8_decode_execute(c, instruction)`: dispatch on the high nibble,
in source case order.  The two process-global side channels (`FX0A`'s
static `store`, `CXNN`'s `rand()`) are threaded through `g`. -/
def chip8_decode_execute (c : Chip8) (g : ProcState) (instruction : Nat) :
    Except StackUB (Chip8 × ProcState) :=
  let ins := instruction % 65536
  if OP ins = 0x0 then (exec_op0 c ins).map (fun c2 => (c2, g))
  else if OP ins = 0x1 then .ok (exec_op1 c ins, g)
  else if OP ins = 0x2 then (exec_op2 c ins).map (fun c2 => (c2, g))
  else if OP ins = 0x3 then .ok (exec_op3 c ins, g)
  else if OP ins = 0x4 then .ok (exec_op4 c ins, g)
  else if OP ins = 0x5 then .ok (exec_op5 c ins, g)
  else if OP ins = 0x9 then .ok (exec_op9 c ins, g)
  else if OP ins = 0x6 then .ok (exec_op6 c ins, g)
  else if OP ins = 0x7 then .ok (exec_op7 c ins, g)
  else if OP ins = 0x8 then .ok (exec_op8 c ins, g)
  else if OP ins = 0xA then .ok (exec_opA c ins, g)
  else if OP ins = 0xB then .ok (exec_opB c ins, g)
  else if OP ins = 0xC then .ok (exec_opC c g ins)
  else if OP ins = 0xD then .ok (exec_opD c ins, g)
  else if OP ins = 0xE then .ok (exec_opE c ins, g)
  else if OP ins = 0xF then .ok (exec_opF c g ins)
  else .ok (c, g)

/-- Does the instruction's execution path touch the process-global state
(the `FX0A` static `store` or the `CXNN` `rand()` stream)? -/
def usesProcState (instruction : Nat) : Bool :=
  let ins := instruction % 65536
  decide (OP ins = 0xC) || (decide (OP ins = 0xF) && decide (NN ins = 0x0A))

/-- A freshly zeroed machine, with the field sizes of the C struct and
`pc` two past the program start (as after fetching one instruction). -/
def chip8Init : Chip8 :=
  { mem := Array.mkArray MEM_SIZE 0, pc := 0x202, i := 0,
    stack := Array.mkArray STACK_SIZE 0, sp := 0,
    delay_timer := 0, sound_timer := 0,
    v := Array.mkArray REG_COUNT 0,
    display := Array.mkArray DISPLAY_SIZE 0, keys := 0, quirks := 0 }

/-- Process-global state at program start: `store = 0`, no pending
`rand()` outputs. -/
def procInit : ProcState := { store := 0, rands := [] }

/-- A machine whose memory holds a single all-on sprite row at `i = 0`. -/
def spriteMachine : Chip8 := { chip8Init with mem := #[0xFF] }

/-- Process state in the middle of an `FX0A` wait: key 1 was sampled as
held on an earlier cycle. -/
def waitProc : ProcState := { store := 2, rands := [] }

/-- Spec-side reading of the draw algorithm, for comparison with
`chip8_load_pixels`: the left display cell touched by sprite row `i`
when drawing at already-wrapped coordinates `(x, y)`. -/
def leftCell (x y i : Nat) : Nat := (y + i) * DISPLAY_WIDTH + x / DISPLAY_WIDTH

/-- Spec-side: does composing sprite row `i` (sprite read at `mem[ireg+i]`,
drawn at already-wrapped `(x, y)`) erase a pixel that is on in `disp` in
either touched cell — `old_cell_value & shifted_sprite_bits ≠ 0` for the
left cell, or for the right cell when that cell is part of the row
(`(leftCell+1) % 8 ≠ 0`)? -/
def rowCollision (mem : Array Nat) (ireg : Nat) (disp : Array Nat) (x y i : Nat) : Bool :=
  let sprite_row := dget mem (ireg + i)
  let start_bit := x % BYTE_SIZE
  let rhs_bits := BYTE_SIZE - start_bit
  let idx := leftCell x y i
  decide (dget disp idx &&& (sprite_row >>> start_bit) ≠ 0) ||
    (decide ((idx + 1) % DISPLAY_WIDTH ≠ 0) &&
      decide (dget disp (idx + 1) &&&
        (((sprite_row &&& (0xFF >>> rhs_bits)) <<< rhs_bits) % 256) ≠ 0))

/-- Spec-side collision flag of a whole draw at raw coordinates: some row
that is actually drawn (start coordinates wrapped, rows past the bottom
of the 32-row display not drawn) collides against the pre-draw display. -/
def collisionSpec (c : Chip8) (x y h : Nat) : Bool :=
  (List.range h).any fun i =>
    decide (y % DISPLAY_HEIGHT + i < DISPLAY_HEIGHT) &&
      rowCollision c.mem c.i c.display (x % (DISPLAY_WIDTH * BYTE_SIZE)) (y % DISPLAY_HEIGHT) i

/-- Spec-side: is display cell `j` touched (composed onto) by a draw at
raw coordinates `(x, y)` of height `h`?  Only rows that stay on the
display touch cells, and a row's right-hand cell is touched only when it
stays within the same display row. -/
def touchedCell (x y h : Nat) (j : Nat) : Bool :=
  (List.range h).any fun i =>
    let idx := leftCell (x % (DISPLAY_WIDTH * BYTE_SIZE)) (y % DISPLAY_HEIGHT) i
    decide (y % DISPLAY_HEIGHT + i < DISPLAY_HEIGHT) &&
      (decide (j = idx) ||
        (decide (j = idx + 1) && decide ((idx + 1) % DISPLAY_WIDTH ≠ 0)))

set_option maxRecDepth 8000

/-! ## Array access helper lemmas -/

theorem dget_setD_ne (a : Array Nat) (k j v : Nat) (h : j ≠ k) :
    dget (a.setD k v) j = dget a j := by
  unfold dget Array.setD
  split
  · rw [Array.getD_eq_get?, Array.getD_eq_get?, Array.get?_set]
    simp [h.symm]
  · rfl

theorem dget_setD_self (a : Array Nat) (k v : Nat) (h : k < a.size) :
    dget (a.setD k v) k = v % 256 := by
  unfold dget Array.setD
  split
  · rw [Array.getD_eq_get?, Array.get?_set]
    simp
  · omega

theorem setD_oob (a : Array Nat) (k v : Nat) (h : a.size ≤ k) : a.setD k v = a := by
  unfold Array.setD
  split
  · omega
  · rfl

theorem dget_lt (a : Array Nat) (j : Nat) : dget a j < 256 :=
  Nat.mod_lt _ (by omega)

theorem dget_setD_xor_zero (a : Array Nat) (k j : Nat) :
    dget (a.setD k (dget a k ^^^ 0)) j = dget a j := by
  rcases Nat.lt_or_ge k a.size with hk | hk
  · rcases eq_or_ne j k with heq | hne
    · rw [heq, dget_setD_self a k _ hk, Nat.xor_zero, Nat.mod_eq_of_lt (dget_lt a k)]
    · exact dget_setD_ne a k j _ hne
  · rw [setD_oob a k _ hk]

/-! ## C1 -/

/-- C1: the claim says `FX18` copies `vX` into the *sound* timer and
leaves the delay timer unchanged.  Evaluating the code at `v0 = 5`,
`delay_timer = 7`, `sound_timer = 9`: `FX18` overwrites the *delay*
timer with 5 and leaves the sound timer at 9 (the source's own debug
message for this case says `sound_timer = vX`, but line 436 assigns
`c->delay_timer`).  `FX15` (second conjunct) does copy `vX` into the
delay timer, as the claim says. -/
theorem fx18_writes_delay_timer_not_sound :
    (chip8_decode_execute
        { chip8Init with v := (Array.mkArray 16 0).setD 0 5,
                         delay_timer := 7, sound_timer := 9 }
        procInit 0xF018).map (fun p => (p.1.delay_timer, p.1.sound_timer))
      = .ok (5, 9) ∧
    (chip8_decode_execute
        { chip8Init with v := (Array.mkArray 16 0).setD 0 5,
                         delay_timer := 7, sound_timer := 9 }
        procInit 0xF015).map (fun p => (p.1.delay_timer, p.1.sound_timer))
      = .ok (5, 9) :=
  ⟨by rfl, by rfl⟩

/-! ## C2 -/

/-- C2: with `QUIRK_INC_INDEX` enabled, `FX55` advances `i` by `X+1`
(first conjunct, `X = 3`: `i` goes from 100 to 104), but `FX65` leaves
`i` unchanged (second conjunct: still 100 — the increment is only
implemented in the `0x55` case, contradicting the claim and the
program's own usage text for `-qinc-index`).  With the quirk disabled
both leave `i` unchanged (last two conjuncts), as claimed. -/
theorem fx55_fx65_increment_index_behavior :
    (chip8_decode_execute { chip8Init with i := 100, quirks := QUIRK_INC_INDEX }
        procInit 0xF355).map (fun p => p.1.i) = .ok 104 ∧
    (chip8_decode_execute { chip8Init with i := 100, quirks := QUIRK_INC_INDEX }
        procInit 0xF365).map (fun p => p.1.i) = .ok 100 ∧
    (chip8_decode_execute { chip8Init with i := 100 }
        procInit 0xF355).map (fun p => p.1.i) = .ok 100 ∧
    (chip8_decode_execute { chip8Init with i := 100 }
        procInit 0xF365).map (fun p => p.1.i) = .ok 100 :=
  ⟨by rfl, by rfl, by rfl, by rfl⟩

/-! ## C3 -/

/-- C3: the claim says `BNNN` replaces `pc` with `NNN + v0` (or
`NNN + vX` under the quirk).  Evaluating the code at `pc = 0x202`,
`v0 = 4`, instruction `0xB123`: the code assigns `i = 0x123 + 4 = 0x127`
and leaves `pc` at `0x202` — no jump happens at all (line 368 writes
`c->i`, not `c->pc`).  Same with the `QUIRK_BXNN` variant (`v1 = 4`,
second conjunct). -/
theorem bnnn_sets_index_not_pc :
    (chip8_decode_execute { chip8Init with v := (Array.mkArray 16 0).setD 0 4 }
        procInit 0xB123).map (fun p => (p.1.pc, p.1.i)) = .ok (0x202, 0x127) ∧
    (chip8_decode_execute
        { chip8Init with v := (Array.mkArray 16 0).setD 1 4, quirks := QUIRK_BXNN }
        procInit 0xB123).map (fun p => (p.1.pc, p.1.i)) = .ok (0x202, 0x127) ∧
    (0x202 : Nat) ≠ 0x127 :=
  ⟨by rfl, by rfl, by decide⟩

/-! ## C4 -/

/-- C4: `2NNN` below capacity does push `pc` and jump (first conjunct:
`sp = 3`, push of `pc = 0x202` lands in `stack[3]`, `sp` becomes 4,
`pc` becomes `0xABC`).  But at capacity (`sp = 16`) the code performs an
unchecked write at `stack[16]`, outside the 16-entry array (second
conjunct), and `00EE` on an empty stack (`sp = 0`) wraps `sp` to 255 and
performs an unchecked read at `stack[255]`, outside the 16-entry array
(third conjunct) — undefined behavior, not a detected error in either
case. -/
theorem stack_call_ret_bounds_behavior :
    (chip8_decode_execute { chip8Init with sp := 3 } procInit 0x2ABC).map
        (fun p => (p.1.stack.getD 3 9999, p.1.sp, p.1.pc)) = .ok (0x202, 4, 0xABC) ∧
    chip8_decode_execute { chip8Init with sp := 16 } procInit 0x2ABC
      = .error (.stackWrite 16) ∧
    chip8_decode_execute { chip8Init with sp := 0 } procInit 0x00EE
      = .error (.stackRead 255) :=
  ⟨by rfl, by rfl, by rfl⟩

/-! ## C10 -/

/-- C10: the claim says every display access has index `< 256` and that
the `idx+1` access only happens when `idx+1 < 256`.  Drawing one sprite
row at `x = 60`, `y = 31` gives `idx = 255`: the row is drawn
(`idx < 256`), and the trailing unconditional
`c->display[idx+1] ^= (not_offscreen ? mask : 0)` accesses index
`256 = DISPLAY_SIZE` — one past the end of the display array. -/
theorem draw_display_access_out_of_bounds :
    loadPixelsDisplayAccesses 60 31 1 = [255, 255, 256] ∧
    DISPLAY_SIZE ≤ 256 :=
  ⟨by rfl, by decide⟩

/-! ## C5 counterexample -/

/-- C5 fails as stated: with key 1 held during the wait (`store = 2`)
and, on the next sample, key 1 released while key 0 is simultaneously
pressed (`keys = 1`), the engine completes the wait (`pc` stays
`0x202`, not decremented) but stores key number 0 into `vX` — yet key 0
was *pressed*, not released (it is down in `keys` and was up in
`store`); the key actually released is key 1. -/
theorem fx0a_simultaneous_press_release_counterexample :
    (chip8_decode_execute
        { chip8Init with keys := 1, v := (Array.mkArray 16 0).setD 0 0xAA }
        { store := 2, rands := [] } 0xF00A).map
        (fun p => (vget p.1 0, p.1.pc, p.2.store)) = .ok (0, 0x202, 0) ∧
    Nat.testBit 1 0 = true ∧ Nat.testBit 2 0 = false ∧
    Nat.testBit 2 1 = true ∧ Nat.testBit 1 1 = false :=
  ⟨by rfl, by decide, by decide, by decide, by decide⟩

/-! ## C8 counterexample -/

/-- C8 fails as stated when `vX` is the flag register itself: executing
`8FF4` (X = Y = 15) with `v15 = 200`, the claim's "`vX` becomes
`(vX+vY) mod 256`" requires `v15 = (200+200) % 256 = 144`, but the code
stores the carry flag last, so `v15 = 1`. -/
theorem add_carry_vf_alias_counterexample :
    (chip8_decode_execute { chip8Init with v := (Array.mkArray 16 0).setD 15 200 }
        procInit 0x8FF4).map (fun p => vget p.1 15) = .ok 1 ∧
    (200 + 200) % 256 = 144 ∧ (1 : Nat) ≠ 144 :=
  ⟨by rfl, by decide, by decide⟩

/-! ## C9 counterexample -/

/-- C9 fails as stated: two executions from *identical* machine states
(`chip8Init`, identical memory, registers, stack, timers, display, key
bitmask and quirks) produce different successor states when the hidden
process-global state differs.  `CXNN` reads the libc `rand()` stream
(first two conjuncts: `v0` becomes 0 vs 255), and `FX0A` reads the
function-local `static` wait store, which is shared by every machine
instance in the process rather than per-instance (last two conjuncts:
`pc` stays 0x202 vs is rewound to 0x200). -/
theorem exec_depends_on_process_state_counterexample :
    (chip8_decode_execute chip8Init { store := 0, rands := [0] } 0xC0FF).map
        (fun p => vget p.1 0) = .ok 0 ∧
    (chip8_decode_execute chip8Init { store := 0, rands := [255] } 0xC0FF).map
        (fun p => vget p.1 0) = .ok 255 ∧
    (chip8_decode_execute chip8Init { store := 2, rands := [] } 0xF00A).map
        (fun p => p.1.pc) = .ok 0x202 ∧
    (chip8_decode_execute chip8Init { store := 0, rands := [] } 0xF00A).map
        (fun p => p.1.pc) = .ok 0x200 :=
  ⟨by rfl, by rfl, by rfl, by rfl⟩

/-! ## C8 amended -/

/-- Decode fields of an `8XY4` instruction built from register numbers
`x, y < 16`. -/
theorem decode_8xy4 : ∀ x < 16, ∀ y < 16,
    (0x8004 + x * 256 + y * 16) % 65536 = 0x8004 + x * 256 + y * 16 ∧
    OP (0x8004 + x * 256 + y * 16) = 8 ∧
    X (0x8004 + x * 256 + y * 16) = x ∧
    Y (0x8004 + x * 256 + y * 16) = y ∧
    N (0x8004 + x * 256 + y * 16) = 4 := by decide

/-- C8, amended: for every pair of registers `x ≠ 15`, `y`, `8XY4` sets
`vX` to `(vX + vY) mod 256` and sets `v15` to 1 iff `vX + vY > 255`
(when `X = 15` the carry flag is stored last and wins, see the
counterexample).  The concrete conjuncts are the claim's examples:
`vX = 200, vY = 100` gives result 44 with `v15 = 1`, and
`vX = 10, vY = 20` gives result 30 with `v15 = 0`. -/
theorem add_carry_amended :
    (∀ (c : Chip8) (g : ProcState) (x y : Nat),
      x < 16 → y < 16 → x ≠ 15 → c.v.size = 16 →
      ∃ c2 : Chip8,
        chip8_decode_execute c g (0x8004 + x * 256 + y * 16) = .ok (c2, g) ∧
        vget c2 x = (vget c x + vget c y) % 256 ∧
        vget c2 15 = (if 255 < vget c x + vget c y then 1 else 0)) ∧
    (chip8_decode_execute
        { chip8Init with v := ((Array.mkArray 16 0).setD 1 200).setD 2 100 }
        procInit 0x8124).map (fun p => (vget p.1 1, vget p.1 15)) = .ok (44, 1) ∧
    (chip8_decode_execute
        { chip8Init with v := ((Array.mkArray 16 0).setD 1 10).setD 2 20 }
        procInit 0x8124).map (fun p => (vget p.1 1, vget p.1 15)) = .ok (30, 0) := by
  refine ⟨?_, by rfl, by rfl⟩
  intro c g x y hx hy hx15 hv
  obtain ⟨hmod, hop, hX, hY, hN⟩ := decode_8xy4 x hx y hy
  refine ⟨{ c with v := (c.v.setD x ((vget c x + vget c y) % 256)).setD 0xF (if 0xFF < vget c x + vget c y then 1 else 0) }, ?_, ?_, ?_⟩
  · simp only [chip8_decode_execute, hmod, hop, exec_op8, hX, hY, hN]
    norm_num
  · show dget ((c.v.setD x ((vget c x + vget c y) % 256)).setD 0xF _) x = _
    rw [dget_setD_ne _ _ _ _ hx15,
      dget_setD_self _ _ _ (by omega : x < c.v.size),
      Nat.mod_mod_of_dvd _ dvd_rfl]
  · show dget ((c.v.setD x ((vget c x + vget c y) % 256)).setD 0xF _) 0xF = _
    rw [dget_setD_self _ _ _ (by rw [Array.size_setD]; omega)]
    split <;> rfl

/-- Witness for the amended C8 theorem at `x = 1`, `y = 2` on the
zeroed machine. -/
theorem add_carry_amended_witness :
    ∃ c2 : Chip8,
      chip8_decode_execute chip8Init procInit (0x8004 + 1 * 256 + 2 * 16)
        = .ok (c2, procInit) ∧
      vget c2 1 = (vget chip8Init 1 + vget chip8Init 2) % 256 ∧
      vget c2 15 = (if 255 < vget chip8Init 1 + vget chip8Init 2 then 1 else 0) :=
  add_carry_amended.1 chip8Init procInit 1 2 (by decide) (by decide) (by decide) (by rfl)

/-! ## C5 amended -/

/-- The key-search loop returns a set bit of `diff` below `CKEY_ESC`
whenever one exists at or above the current position (and the fuel
covers the remaining positions). -/
theorem keySearchGo_finds (diff : Nat) :
    ∀ fuel k, CKEY_ESC ≤ k + fuel →
      (∃ t, k ≤ t ∧ t < CKEY_ESC ∧ diff.testBit t = true) →
      diff.testBit (keySearchGo diff k fuel) = true ∧
        keySearchGo diff k fuel < CKEY_ESC := by
  intro fuel
  induction fuel with
  | zero =>
    intro k hk h
    obtain ⟨t, ht1, ht2, _⟩ := h
    simp only [CKEY_ESC] at *
    omega
  | succ n ih =>
    intro k hk h
    obtain ⟨t, ht1, ht2, ht3⟩ := h
    have hklt : k < CKEY_ESC := by omega
    simp only [keySearchGo]
    by_cases hb : diff.testBit k
    · rw [if_neg (by tauto)]
      exact ⟨hb, hklt⟩
    · rw [if_pos ⟨hklt, hb⟩]
      apply ih (k + 1) (by omega)
      refine ⟨t, ?_, ht2, ht3⟩
      have : t ≠ k := fun he => by rw [he] at ht3; exact hb (by simp [ht3])
      omega

/-- `keySearch diff 0` finds the lowest set bit of a nonzero
`diff < 2^16`, and that bit is below `CKEY_ESC`. -/
theorem keySearch_finds (diff : Nat) (h0 : diff ≠ 0) (hlt : diff < 65536) :
    diff.testBit (keySearch diff 0) = true ∧ keySearch diff 0 < CKEY_ESC := by
  apply keySearchGo_finds diff (CKEY_ESC - 0) 0 (by simp [CKEY_ESC])
  obtain ⟨i, hi, hmax⟩ := Nat.exists_most_significant_bit h0
  refine ⟨i, Nat.zero_le i, ?_, hi⟩
  by_contra hge
  have h16 : (16 : Nat) ≤ i := by simpa [CKEY_ESC] using hge
  have : diff < 2 ^ i := lt_of_lt_of_le hlt (by calc
    (65536 : Nat) = 2 ^ 16 := by norm_num
    _ ≤ 2 ^ i := Nat.pow_le_pow_right (by norm_num) h16)
  rw [Nat.testBit_lt_two_pow this] at hi
  exact Bool.false_ne_true hi

/-- Decode fields of an `FX0A` instruction built from a register
number `reg < 16`. -/
theorem decode_fx0a : ∀ reg < 16,
    (0xF00A + reg * 256) % 65536 = 0xF00A + reg * 256 ∧
    OP (0xF00A + reg * 256) = 0xF ∧
    X (0xF00A + reg * 256) = reg ∧
    NN (0xF00A + reg * 256) = 0x0A := by decide

/-- C5, amended: each execution of `FX0A` compares the previously
sampled key bitmask (`store`, a process-wide static) with the current
one.  (1) While `store ≤ keys` — in particular on the first execution,
when `store = 0`, even if keys are already held — the engine rewinds
`pc` by 2, leaves every register unchanged and resamples `store`, so
the same instruction is fetched again next cycle.  (2) When
`keys < store` it completes: `pc` is not decremented, `store` resets,
and `vX` receives `keySearch (store ^^^ keys) 0`, the lowest-numbered
key whose state changed.  (3) That key is guaranteed to be a *released*
key (held in `store`, up in `keys`, and a valid key number `< 16`) when
no key was simultaneously pressed (`keys ⊆ store` bitwise); with a
simultaneous press of a lower-numbered key the stored number can be a
pressed key instead (see the counterexample). -/
theorem fx0a_wait_amended :
    ∀ (c : Chip8) (g : ProcState) (reg : Nat), reg < 16 →
      (g.store ≤ c.keys →
        chip8_decode_execute c g (0xF00A + reg * 256)
          = .ok ({ c with pc := (c.pc + 65534) % 65536 }, { g with store := c.keys })) ∧
      (c.keys < g.store →
        chip8_decode_execute c g (0xF00A + reg * 256)
          = .ok ({ c with v := c.v.setD reg (keySearch (g.store ^^^ c.keys) 0) },
                 { g with store := 0 })) ∧
      (c.keys < g.store → g.store < 65536 →
        (∀ t, c.keys.testBit t = true → g.store.testBit t = true) →
        g.store.testBit (keySearch (g.store ^^^ c.keys) 0) = true ∧
        c.keys.testBit (keySearch (g.store ^^^ c.keys) 0) = false ∧
        keySearch (g.store ^^^ c.keys) 0 < 16) := by
  intro c g reg hreg
  obtain ⟨hmod, hop, hX, hNN⟩ := decode_fx0a reg hreg
  refine ⟨?_, ?_, ?_⟩
  · intro hle
    simp only [chip8_decode_execute, hmod, hop, exec_opF, hX, hNN]
    rw [if_neg (by omega : ¬ c.keys < g.store)]
    norm_num
  · intro hlt
    simp only [chip8_decode_execute, hmod, hop, exec_opF, hX, hNN]
    rw [if_pos hlt]
    norm_num
  · intro hlt hstore hsub
    have hkeys : c.keys < 65536 := lt_trans hlt hstore
    have hne : g.store ^^^ c.keys ≠ 0 := by
      intro hc
      exact absurd (Nat.xor_eq_zero.mp hc) (by omega)
    have hxlt : g.store ^^^ c.keys < 65536 := by
      have := Nat.xor_lt_two_pow (n := 16) (by simpa using hstore) (by simpa using hkeys)
      simpa using this
    obtain ⟨hbit, hk16⟩ := keySearch_finds _ hne hxlt
    rw [Nat.testBit_xor] at hbit
    by_cases hkb : c.keys.testBit (keySearch (g.store ^^^ c.keys) 0)
    · have := hsub _ hkb
      rw [this, hkb] at hbit
      simp at hbit
    · simp only [hkb, Bool.xor_false] at hbit
      exact ⟨hbit, by simp [hkb], by simpa [CKEY_ESC] using hk16⟩

/-- Witness for the amended C5 theorem: machine with no keys held,
mid-wait process state that sampled key 1 as held (`store = 2`); the
wait completes, storing released key 1 into `v0`. -/
theorem fx0a_wait_amended_witness :
    (chip8_decode_execute chip8Init waitProc (0xF00A + 0 * 256)
      = .ok ({ chip8Init with
                v := chip8Init.v.setD 0 (keySearch (waitProc.store ^^^ chip8Init.keys) 0) },
             { waitProc with store := 0 })) ∧
    waitProc.store.testBit (keySearch (waitProc.store ^^^ chip8Init.keys) 0) = true ∧
    chip8Init.keys.testBit (keySearch (waitProc.store ^^^ chip8Init.keys) 0) = false ∧
    keySearch (waitProc.store ^^^ chip8Init.keys) 0 < 16 :=
  ⟨(fx0a_wait_amended chip8Init waitProc 0 (by decide)).2.1 (by decide),
   (fx0a_wait_amended chip8Init waitProc 0 (by decide)).2.2 (by decide) (by decide)
     (fun t ht => by rw [show chip8Init.keys = 0 from rfl] at ht; simp at ht)⟩

/-! ## C9 amended -/

/-- For any `0xF`-family instruction other than `FX0A`, the `exec_opF`
case neither reads nor writes the process-global state. -/
theorem exec_opF_pure (c : Chip8) (g : ProcState) (ins : Nat)
    (h : NN ins ≠ 0x0A) :
    exec_opF c g ins = ((exec_opF c procInit ins).1, g) := by
  simp only [exec_opF]
  rw [if_neg h, if_neg h]

/-- C9, amended: executing one instruction is a function of the machine
instance's own state *except* through the two process-global side
channels — `FX0A` (whose wait store is a single `static`, shared by all
machine instances in the process rather than per-instance) and `CXNN`
(the libc `rand()` state).  For every instruction outside those two
forms, the successor machine state does not depend on the process state
and the process state is passed through unchanged. -/
theorem exec_pure_except_fx0a_cxnn :
    ∀ (c : Chip8) (instruction : Nat) (g1 g2 : ProcState),
      usesProcState instruction = false →
      chip8_decode_execute c g1 instruction
        = (chip8_decode_execute c g2 instruction).map (fun p => (p.1, g1)) := by
  intro c instruction g1 g2 h
  simp only [usesProcState, Bool.or_eq_false_iff, Bool.and_eq_false_iff,
    decide_eq_false_iff_not] at h
  have hlt : OP (instruction % 65536) < 16 := by
    have h1 : instruction % 65536 < 65536 := Nat.mod_lt _ (by omega)
    simp only [OP, Nat.shiftRight_eq_div_pow]
    omega
  set op := OP (instruction % 65536) with hop
  simp only [chip8_decode_execute, ← hop]
  interval_cases op
  · cases hop0 : exec_op0 c (instruction % 65536) <;> simp [Except.map]
  · simp [Except.map]
  · cases hop2 : exec_op2 c (instruction % 65536) <;> simp [Except.map]
  · simp [Except.map]
  · simp [Except.map]
  · simp [Except.map]
  · simp [Except.map]
  · simp [Except.map]
  · simp [Except.map]
  · simp [Except.map]
  · simp [Except.map]
  · simp [Except.map]
  · exact absurd rfl h.1
  · simp [Except.map]
  · simp [Except.map]
  · have hnn : NN (instruction % 65536) ≠ 0x0A := by
      rcases h.2 with hne | hne
      · exact absurd rfl hne
      · exact hne
    simp only [Except.map]
    norm_num
    rw [exec_opF_pure c g1 _ hnn, exec_opF_pure c g2 _ hnn]

/-- Witness for the amended C9 theorem at the `00E0` (clear screen)
instruction, with two distinct process states. -/
theorem exec_pure_except_fx0a_cxnn_witness :
    usesProcState 0x00E0 = false ∧
    chip8_decode_execute chip8Init waitProc 0x00E0
      = (chip8_decode_execute chip8Init procInit 0x00E0).map (fun p => (p.1, waitProc)) :=
  ⟨by decide, exec_pure_except_fx0a_cxnn chip8Init 0x00E0 waitProc procInit (by decide)⟩

/-! ## C6 and C7: the draw loop -/

/-- The `vf` accumulator of the row loop only ever grows by `||`:
running the loop with initial accumulator `vf` equals `vf ||` the run
from `false`. -/
theorem drawRows_vf_or (mem : Array Nat) (ireg x y : Nat) :
    ∀ n i disp vf, (drawRows mem ireg x y i n disp vf).2
      = (vf || (drawRows mem ireg x y i n disp false).2) := by
  intro n
  induction n with
  | zero => intro i disp vf; simp [drawRows]
  | succ m ih =>
    intro i disp vf
    simp only [drawRows]
    by_cases hbreak : DISPLAY_SIZE ≤ (y + i) * DISPLAY_WIDTH + x / DISPLAY_WIDTH
    · rw [if_pos hbreak, if_pos hbreak]
      simp
    · rw [if_neg hbreak, if_neg hbreak]
      conv_lhs => rw [ih]
      conv_rhs => rw [ih]
      cases vf
      · simp only [Bool.false_or]
      · simp only [Bool.true_or, ite_self]

/-- `rowCollision` only reads the two cells of its row. -/
theorem rowCollision_congr (mem : Array Nat) (ireg : Nat) (d1 d2 : Array Nat) (x y i : Nat)
    (h1 : dget d1 (leftCell x y i) = dget d2 (leftCell x y i))
    (h2 : dget d1 (leftCell x y i + 1) = dget d2 (leftCell x y i + 1)) :
    rowCollision mem ireg d1 x y i = rowCollision mem ireg d2 x y i := by
  simp only [rowCollision, h1, h2]

/-- One row's pair of display writes leaves every other cell unchanged. -/
theorem dget_row_update (disp : Array Nat) (idx v1 v2 : Nat) (j : Nat)
    (h1 : j ≠ idx) (h2 : j ≠ idx + 1) :
    dget ((disp.setD idx v1).setD (idx + 1) v2) j = dget disp j := by
  rw [dget_setD_ne _ _ _ _ h2, dget_setD_ne _ _ _ _ h1]

/-- Main loop invariant for the collision flag: the `vf` computed by the
row loop (over already-wrapped coordinates `x < 64`) is exactly "some
drawn row collides with the *pre-draw* display" — rows touch pairwise
disjoint cells (each row moves 8 cells further on), so the running
display equals the original on every cell a later row examines. -/
theorem drawRows_vf_spec (mem : Array Nat) (ireg x y : Nat) (hx : x < 64) :
    ∀ n i disp, (drawRows mem ireg x y i n disp false).2
      = (List.range n).any
          (fun k => decide (y + (i + k) < 32) && rowCollision mem ireg disp x y (i + k)) := by
  intro n
  induction n with
  | zero => intro i disp; simp [drawRows]
  | succ m ih =>
    intro i disp
    simp only [drawRows]
    by_cases hbreak : DISPLAY_SIZE ≤ (y + i) * DISPLAY_WIDTH + x / DISPLAY_WIDTH
    · rw [if_pos hbreak]
      have hy : 32 ≤ y + i := by
        simp only [DISPLAY_SIZE, DISPLAY_WIDTH, DISPLAY_HEIGHT] at hbreak
        omega
      symm
      simp only [List.any_eq_false]
      intro k _
      have hnot : ¬ (y + (i + k) < 32) := by omega
      simp [hnot]
    · rw [if_neg hbreak]
      have hy : y + i < 32 := by
        simp only [DISPLAY_SIZE, DISPLAY_WIDTH, DISPLAY_HEIGHT] at hbreak
        omega
      rw [drawRows_vf_or, ih]
      set idxt := (y + i) * DISPLAY_WIDTH + x / DISPLAY_WIDTH with hidxt
      set fm := dget mem (ireg + i) >>> (x % BYTE_SIZE) with hfm
      set d1 := disp.setD idxt (dget disp idxt ^^^ fm) with hd1
      set sm := (dget mem (ireg + i) &&& 255 >>> (BYTE_SIZE - x % BYTE_SIZE)) <<<
        (BYTE_SIZE - x % BYTE_SIZE) % 256 with hsm
      set d2 := d1.setD (idxt + 1)
        (dget d1 (idxt + 1) ^^^ if (idxt + 1) % DISPLAY_WIDTH ≠ 0 then sm else 0) with hd2
      have htrans : ∀ k : Nat,
          rowCollision mem ireg d2 x y (i + 1 + k)
            = rowCollision mem ireg disp x y (i + 1 + k) := by
        intro k
        rw [hd2, hd1]
        apply rowCollision_congr
        · apply dget_row_update
          · rw [hidxt]; simp only [leftCell, DISPLAY_WIDTH]; omega
          · rw [hidxt]; simp only [leftCell, DISPLAY_WIDTH]; omega
        · apply dget_row_update
          · rw [hidxt]; simp only [leftCell, DISPLAY_WIDTH]; omega
          · rw [hidxt]; simp only [leftCell, DISPLAY_WIDTH]; omega
      simp only [htrans]
      rw [List.range_succ_eq_map, List.any_cons, List.any_map]
      have hfun : ((fun k => decide (y + (i + k) < 32) && rowCollision mem ireg disp x y (i + k)) ∘ Nat.succ)
          = fun k => decide (y + (i + 1 + k) < 32) && rowCollision mem ireg disp x y (i + 1 + k) := by
        funext k
        simp only [Function.comp_apply, Nat.succ_eq_add_one]
        rw [show i + (k + 1) = i + 1 + k from by omega]
      rw [hfun]
      simp only [Nat.add_zero]
      congr 1
      have hb : dget d1 (idxt + 1) = dget disp (idxt + 1) := by
        rw [hd1]
        exact dget_setD_ne _ _ _ _ (by omega)
      simp only [rowCollision, leftCell, ← hidxt, ← hfm, ← hsm, hb]
      by_cases hoff : (idxt + 1) % DISPLAY_WIDTH ≠ 0
      · simp [hoff, hy]
      · simp [hoff, hy]

/-- Display cells that no drawn row is allowed to touch (not a left
cell, and a right cell only when the row crosses a display-row
boundary, where the loop XORs 0) keep their value through the loop. -/
theorem drawRows_untouched (mem : Array Nat) (ireg x y : Nat) (hx : x < 64) :
    ∀ n i disp vf j,
      (∀ k, k < n → y + (i + k) < 32 →
        j ≠ leftCell x y (i + k) ∧
          (j = leftCell x y (i + k) + 1 → (leftCell x y (i + k) + 1) % DISPLAY_WIDTH = 0)) →
      dget (drawRows mem ireg x y i n disp vf).1 j = dget disp j := by
  intro n
  induction n with
  | zero => intro i disp vf j hj; simp [drawRows]
  | succ m ih =>
    intro i disp vf j hj
    simp only [drawRows]
    by_cases hbreak : DISPLAY_SIZE ≤ (y + i) * DISPLAY_WIDTH + x / DISPLAY_WIDTH
    · rw [if_pos hbreak]
    · rw [if_neg hbreak]
      have hy : y + i < 32 := by
        simp only [DISPLAY_SIZE, DISPLAY_WIDTH, DISPLAY_HEIGHT] at hbreak
        omega
      set idxt := (y + i) * DISPLAY_WIDTH + x / DISPLAY_WIDTH with hidxt
      set fm := dget mem (ireg + i) >>> (x % BYTE_SIZE) with hfm
      set d1 := disp.setD idxt (dget disp idxt ^^^ fm) with hd1
      set sm := (dget mem (ireg + i) &&& 255 >>> (BYTE_SIZE - x % BYTE_SIZE)) <<<
        (BYTE_SIZE - x % BYTE_SIZE) % 256 with hsm
      set d2 := d1.setD (idxt + 1)
        (dget d1 (idxt + 1) ^^^ if (idxt + 1) % DISPLAY_WIDTH ≠ 0 then sm else 0) with hd2
      rw [ih]
      · obtain ⟨hne, hoff⟩ := hj 0 (by omega) (by simpa using hy)
        have hneL : j ≠ idxt := by
          intro he
          exact hne (by rw [he, hidxt]; simp [leftCell])
        by_cases hj1 : j = idxt + 1
        · have hoffz : (idxt + 1) % DISPLAY_WIDTH = 0 := by
            have := hoff (by rw [hj1, hidxt]; simp [leftCell])
            rw [hidxt]
            simpa [leftCell] using this
          rw [hd2, if_neg (by simpa using hoffz), hj1, dget_setD_xor_zero, hd1,
            dget_setD_ne _ _ _ _ (by omega)]
        · rw [hd2, dget_setD_ne _ _ _ _ hj1, hd1, dget_setD_ne _ _ _ _ hneL]
      · intro k hk hyk
        have := hj (k + 1) (by omega) (by rw [show i + (k + 1) = i + 1 + k from by omega]; exact hyk)
        rw [show i + 1 + k = i + (k + 1) from by omega]
        exact this

/-- C6: drawing an 8×1 all-on sprite at `(0,0)` onto an all-off display
turns the 8 pixels of cell 0 on with `v15 = 0`; drawing it again
restores the all-off display (XOR round trip) with `v15 = 1`; and in
general `v15` is set to 1 after a draw iff
`old_cell_value &&& shifted_sprite_bits ≠ 0` for some touched cell of
some drawn row (`collisionSpec`, stated against the pre-draw display),
otherwise to 0. -/
theorem draw_collision_flag_spec :
    ((chip8_load_pixels spriteMachine 0 0 1).display = (Array.mkArray 256 0).setD 0 255 ∧
     vget (chip8_load_pixels spriteMachine 0 0 1) 15 = 0 ∧
     (chip8_load_pixels (chip8_load_pixels spriteMachine 0 0 1) 0 0 1).display
        = Array.mkArray 256 0 ∧
     vget (chip8_load_pixels (chip8_load_pixels spriteMachine 0 0 1) 0 0 1) 15 = 1) ∧
    ∀ (c : Chip8) (x y h : Nat), c.v.size = 16 →
      vget (chip8_load_pixels c x y h) 15 = (if collisionSpec c x y h then 1 else 0) := by
  refine ⟨⟨by rfl, by rfl, by rfl, by rfl⟩, ?_⟩
  intro c x y h hv
  show dget (chip8_load_pixels c x y h).v 15 = _
  simp only [chip8_load_pixels]
  rw [dget_setD_self _ _ _ (by omega : (0xF : Nat) < c.v.size)]
  rw [drawRows_vf_spec c.mem c.i (x % (DISPLAY_WIDTH * BYTE_SIZE)) (y % DISPLAY_HEIGHT)
    (by simp only [DISPLAY_WIDTH, BYTE_SIZE]; omega) h 0 c.display]
  simp only [collisionSpec, Nat.zero_add, DISPLAY_HEIGHT]
  split <;> rfl

/-- C7: the draw's start coordinates are taken modulo 64 and 32; any
display cell outside the touched set — which contains no cell of a
sprite row past the bottom of the 32-row display, and no right-hand
split cell whose write would cross into the next display row — is
unchanged; concretely, drawing an all-on row at `x = 60` writes only
the left cell's bits (cell 7 of row 0 becomes `0x0F`), and nothing
wraps into row 1 (cell 8) or to column 0 of the same row (cell 0). -/
theorem draw_edge_policy :
    (∀ (c : Chip8) (x y h : Nat),
        chip8_load_pixels c x y h = chip8_load_pixels c (x % 64) (y % 32) h) ∧
    (∀ (c : Chip8) (x y h j : Nat), touchedCell x y h j = false →
        dget (chip8_load_pixels c x y h).display j = dget c.display j) ∧
    (dget (chip8_load_pixels spriteMachine 60 0 1).display 7 = 0x0F ∧
     dget (chip8_load_pixels spriteMachine 60 0 1).display 8 = 0 ∧
     dget (chip8_load_pixels spriteMachine 60 0 1).display 0 = 0) := by
  refine ⟨?_, ?_, by rfl, by rfl, by rfl⟩
  · intro c x y h
    simp only [chip8_load_pixels, DISPLAY_WIDTH, BYTE_SIZE, DISPLAY_HEIGHT]
    norm_num
  · intro c x y h j htc
    simp only [chip8_load_pixels]
    apply drawRows_untouched c.mem c.i _ _
      (by simp only [DISPLAY_WIDTH, BYTE_SIZE]; omega) h 0
    simp only [touchedCell, List.any_eq_false, List.mem_range, Bool.and_eq_true,
      Bool.or_eq_true, decide_eq_true_eq, not_and, not_or] at htc
    intro k hk hyk
    have := htc k hk
    simp only [DISPLAY_HEIGHT, DISPLAY_WIDTH] at this ⊢
    simp only [Nat.zero_add] at hyk ⊢
    have h2 := this hyk
    constructor
    · exact h2.1
    · intro hj1
      by_contra hnz
      exact (h2.2 hj1) hnz

/-- Witness for C6's general conjunct at a concrete machine and draw. -/
theorem draw_collision_flag_spec_witness :
    chip8Init.v.size = 16 ∧
    vget (chip8_load_pixels chip8Init 3 5 2) 15
      = (if collisionSpec chip8Init 3 5 2 then 1 else 0) :=
  ⟨by rfl, draw_collision_flag_spec.2 chip8Init 3 5 2 (by rfl)⟩

/-- Witness for C7's untouched-cell conjunct: drawing at `x = 60` does
not touch cell 8 (column 0 of the next display row). -/
theorem draw_edge_policy_witness :
    touchedCell 60 0 1 8 = false ∧
    dget (chip8_load_pixels spriteMachine 60 0 1).display 8 = dget spriteMachine.display 8 :=
  ⟨by rfl, draw_edge_policy.2.1 spriteMachine 60 0 1 8 (by rfl)⟩
